import Mathlib

/-!
Shallow embedding of the recurse-example splitter worker
(`src/job.ts`, `processJob`) together with its record-store interaction.

JavaScript strings are modelled as lists of UTF-16 code units
(`List Char`); `s.length` is `List.length`, `s.slice(0, mid)` is
`List.take mid s` and `s.slice(mid)` is `List.drop mid s`.
-/

namespace RecurseSplitter

/-- A text segment: a JS string modelled as its list of code units. -/
abbrev Segment := List Char

/-- `const MIN_SEGMENT_LENGTH = 10` from `src/job.ts`. -/
def MIN_SEGMENT_LENGTH : Nat := 10

/-- `segments.every((s) => s.length <= MIN_SEGMENT_LENGTH)` from `src/job.ts`. -/
def allDone (segments : List Segment) : Bool :=
  segments.all (fun s => s.length ≤ MIN_SEGMENT_LENGTH)

/-- The split loop of `processJob` (`src/job.ts` lines 59-72): walk the
segments in order; a segment longer than the threshold contributes its two
halves (`slice(0, mid)` and `slice(mid)` with `mid = floor(length / 2)`) and
one split; a short segment is kept as is.  Returns
`(newSegments, splitsMade)`. -/
def splitRound : List Segment → List Segment × Nat
  | [] => ([], 0)
  | segment :: rest =>
    let r := splitRound rest
    if segment.length > MIN_SEGMENT_LENGTH then
      let mid := segment.length / 2
      (segment.take mid :: segment.drop mid :: r.1, r.2 + 1)
    else
      (segment :: r.1, r.2)

/-- The per-segment action of one split round, written from the spec's
description of the Segment Engine; used to state that `splitRound` (the
code's loop) processes each input segment exactly once, in order, with no
re-splitting of a freshly created half. -/
def splitOne (s : Segment) : List Segment :=
  if s.length > MIN_SEGMENT_LENGTH then
    [s.take (s.length / 2), s.drop (s.length / 2)]
  else
    [s]

/-- The properties of the target record (`SplitterTargetProps` in
`src/types.ts`): `text`, `segments`, `split_count`, `last_split_depth`,
plus arbitrary additional properties (the index signature), modelled as an
association list. -/
structure Props where
  text : Option Segment
  segments : Option (List Segment)
  split_count : Option Nat
  last_split_depth : Option Nat
  other : List (String × String)
deriving DecidableEq, Repr

/-- `segments = text ? [text] : []` with `text = properties.text ?? ''`:
the initial working sequence derived from the `text` property. -/
def initialSegments : Option Segment → List Segment
  | some t => if t.length = 0 then [] else [t]
  | none => []

/-- `src/job.ts` lines 31-36: use `properties.segments` when present and
non-empty, otherwise fall back to wrapping `text`. -/
def derivedSegments (p : Props) : List Segment :=
  match p.segments with
  | some segs => if segs.length = 0 then initialSegments p.text else segs
  | none => initialSegments p.text

/-- The externally owned versioned record: entity id, current properties
and the current version token (the tip cid, modelled as a counter that
every successful write advances). -/
structure Store where
  id : String
  props : Props
  tip : Nat
deriving DecidableEq, Repr

/-- One successful write by any writer: install the new properties and
advance the version token. -/
def storeWrite (st : Store) (p : Props) : Store :=
  { st with props := p, tip := st.tip + 1 }

/-- A sequence of concurrent writes applied to the store. -/
def applyWrites (st : Store) : List Props → Store
  | [] => st
  | p :: ps => applyWrites (storeWrite st p) ps

/-- The store's conditional write (`PUT /entities/{id}` with
`expect_tip`): applies exactly when the current token matches the
expected one, otherwise rejects. -/
def condWrite (st : Store) (expect : Nat) (p : Props) : Option Store :=
  if st.tip = expect then some (storeWrite st p) else none

/-- One Step Result `{ entity_id, done }` returned by `processJob`. -/
structure StepResult where
  entity_id : String
  done : Bool
deriving DecidableEq, Repr

/-- The outcome of one invocation: either the returned Step Results
together with the store's final state, or a thrown error (the store's
state at the moment of the throw). -/
inductive Outcome where
  | ok : List StepResult → Store → Outcome
  | error : Store → Outcome
deriving DecidableEq, Repr

/-- The full updated property set written by the non-terminal path of
`processJob`: `{ ...target.properties, segments: newSegments,
split_count: (previous ?? 0) + 1, last_split_depth: currentDepth }`. -/
def nextProps (p : Props) (currentDepth : Nat) : Props :=
  { p with
    segments := some (splitRound (derivedSegments p)).1
    split_count := some (p.split_count.getD 0 + 1)
    last_split_depth := some currentDepth }

/-- One invocation of `processJob` (`src/job.ts`), with the store's
concurrent environment made explicit:
`st` is the store at the moment of the step-1 `fetchTarget` read,
`ws1` the concurrent writes landing between that read and the tip fetch,
`ws2` the concurrent writes landing between the tip fetch and the `PUT`,
and `tipFails` whether the `GET /entities/{id}/tip` call fails.
The code: derive the working segments, return `done=true` with no further
I/O when all are at or below the threshold; otherwise compute the split
round, fetch a fresh version token, and issue a single conditional write
of `{...properties, segments, split_count, last_split_depth}`, throwing
on tip-fetch failure or write rejection. -/
def processJob (st : Store) (currentDepth : Nat)
    (ws1 ws2 : List Props) (tipFails : Bool) : Outcome :=
  let props := st.props
  let segments := derivedSegments props
  if allDone segments then
    .ok [⟨st.id, true⟩] st
  else
    let newSegments := (splitRound segments).1
    let st2 := applyWrites st ws1
    if tipFails then
      .error st2
    else
      let tip := st2.tip
      let splitCount := props.split_count.getD 0 + 1
      let newProps : Props :=
        { props with
          segments := some newSegments
          split_count := some splitCount
          last_split_depth := some currentDepth }
      let st3 := applyWrites st2 ws2
      match condWrite st3 tip newProps with
      | some st4 => .ok [⟨st.id, false⟩] st4
      | none => .error st3

/-- The Step Results of an outcome, `none` when the invocation threw. -/
def outcomeResults : Outcome → Option (List StepResult)
  | .ok rs _ => some rs
  | .error _ => none

/-- The store's state after the invocation (thrown or not). -/
def finalStore : Outcome → Store
  | .ok _ s => s
  | .error s => s

/-- Forget the `last_split_depth` audit field of a property set. -/
def eraseDepth (p : Props) : Props :=
  { p with last_split_depth := none }

/-- Forget the `last_split_depth` audit field of a store state. -/
def eraseDepthStore (s : Store) : Store :=
  { s with props := eraseDepth s.props }

/-- `n` iterated rounds of the splitting transformation. -/
def iterRounds : Nat → List Segment → List Segment
  | 0, segs => segs
  | n + 1, segs => iterRounds n (splitRound segs).1

/-- The maximum segment length of a sequence
(`Math.max(...segments.map((s) => s.length))`, `0` when empty). -/
def maxSegLength (segs : List Segment) : Nat :=
  (segs.map List.length).foldr max 0

/-- `⌈log2(m / 10)⌉` for a maximum segment length `m`, as a natural
number (`0` when `m ≤ 10`): the least `k` with `m ≤ 10 * 2 ^ k`. -/
def roundsBound (m : Nat) : Nat :=
  Nat.clog 2 ((m + 9) / 10)

/-! ### Lemmas about one split round -/

theorem splitRound_fst (segs : List Segment) :
    (splitRound segs).1 = segs.flatMap splitOne := by
  induction segs with
  | nil => rfl
  | cons s rest ih =>
    simp only [splitRound, splitOne, List.flatMap_cons]
    split
    · simpa using ih
    · simpa using ih

theorem splitRound_snd (segs : List Segment) :
    (splitRound segs).2 =
      segs.countP (fun s => decide (s.length > MIN_SEGMENT_LENGTH)) := by
  induction segs with
  | nil => rfl
  | cons s rest ih =>
    simp only [splitRound, List.countP_cons]
    split
    · simp_all
    · simp_all

theorem splitRound_fst_length (segs : List Segment) :
    (splitRound segs).1.length = segs.length + (splitRound segs).2 := by
  induction segs with
  | nil => rfl
  | cons s rest ih =>
    simp only [splitRound]
    split
    · simp [ih]; omega
    · simp [ih]; omega

theorem splitRound_of_allDone (segs : List Segment)
    (h : allDone segs = true) : splitRound segs = (segs, 0) := by
  induction segs with
  | nil => rfl
  | cons s rest ih =>
    simp only [allDone, List.all_cons, Bool.and_eq_true, decide_eq_true_eq] at h
    have hrest := ih (by simpa [allDone] using h.2)
    simp only [splitRound, hrest]
    split
    · omega
    · rfl

theorem splitRound_snd_pos (segs : List Segment)
    (h : allDone segs = false) : 1 ≤ (splitRound segs).2 := by
  induction segs with
  | nil => simp [allDone] at h
  | cons s rest ih =>
    simp only [allDone, List.all_cons, Bool.and_eq_false_iff] at h
    simp only [splitRound]
    split
    · omega
    · rename_i hle
      rcases h with h | h


      · simp [decide_eq_false_iff_not] at h; omega
      · exact ih (by simpa [allDone] using h)

theorem splitRound_length_le (k : Nat) (segs : List Segment)
    (h : ∀ s ∈ segs, s.length ≤ 10 * 2 ^ (k + 1)) :
    ∀ t ∈ (splitRound segs).1, t.length ≤ 10 * 2 ^ k := by
  intro t ht
  rw [splitRound_fst] at ht
  rcases List.mem_flatMap.1 ht with ⟨s, hs, hts⟩
  have hlen := h s hs
  simp only [splitOne] at hts
  split at hts
  · simp only [List.mem_cons, List.not_mem_nil, or_false] at hts
    rcases hts with h1 | h1
    · subst h1; simp only [List.length_take]; omega
    · subst h1; simp only [List.length_drop]; omega
  · rename_i hle
    simp only [gt_iff_lt, not_lt] at hle
    simp only [List.mem_cons, List.not_mem_nil, or_false] at hts
    subst hts
    have h10 : (1 : Nat) ≤ 2 ^ k := Nat.one_le_two_pow
    have hm : MIN_SEGMENT_LENGTH = 10 := rfl
    omega

theorem allDone_iterRounds (k : Nat) :
    ∀ segs : List Segment, (∀ s ∈ segs, s.length ≤ 10 * 2 ^ k) →
      allDone (iterRounds k segs) = true := by
  induction k with
  | zero =>
    intro segs h
    simp only [iterRounds, allDone, List.all_eq_true, decide_eq_true_eq]
    intro s hs
    have := h s hs
    simpa [MIN_SEGMENT_LENGTH] using this
  | succ k ih =>
    intro segs h
    simpa only [iterRounds] using ih _ (splitRound_length_le k segs h)

theorem length_le_maxSegLength (segs : List Segment) (s : Segment)
    (hs : s ∈ segs) : s.length ≤ maxSegLength segs := by
  induction segs with
  | nil => cases hs
  | cons a rest ih =>
    simp only [maxSegLength, List.map_cons, List.foldr_cons]
    rcases List.mem_cons.1 hs with h | h
    · subst h; exact Nat.le_max_left _ _
    · exact (ih h).trans (Nat.le_max_right _ _)

theorem le_roundsBound_pow (m : Nat) : m ≤ 10 * 2 ^ roundsBound m := by
  have h1 : (m + 9) / 10 ≤ 2 ^ roundsBound m := by
    unfold roundsBound
    exact Nat.le_pow_clog (by norm_num) _
  omega

/-! ### C1: one round of splitting -/

/-- C1: the split round of `processJob` processes each segment exactly
once in original order, replacing each over-threshold segment by its two
contiguous halves split at `floor(length / 2)` (halves of length
`floor(L/2)` and `L - floor(L/2) = ceil(L/2)`, the first never larger,
concatenating back to the original segment), keeping short segments
unchanged, and counting one split per over-threshold segment; no freshly
created half is re-split within the round. -/
theorem splitRound_spec (segs : List Segment) :
    (splitRound segs).1 = segs.flatMap splitOne ∧
    (splitRound segs).2 =
      segs.countP (fun s => decide (s.length > MIN_SEGMENT_LENGTH)) ∧
    (∀ s : Segment, s.length > MIN_SEGMENT_LENGTH →
      splitOne s = [s.take (s.length / 2), s.drop (s.length / 2)] ∧
      (s.take (s.length / 2)).length = s.length / 2 ∧
      (s.drop (s.length / 2)).length = s.length - s.length / 2 ∧
      (s.take (s.length / 2)).length ≤ (s.drop (s.length / 2)).length ∧
      s.take (s.length / 2) ++ s.drop (s.length / 2) = s) ∧
    (∀ s : Segment, s.length ≤ MIN_SEGMENT_LENGTH → splitOne s = [s]) := by
  refine ⟨splitRound_fst segs, splitRound_snd segs, ?_, ?_⟩
  · intro s hs
    refine ⟨by simp [splitOne, hs], ?_, ?_, ?_, List.take_append_drop _ _⟩
    · simp [List.length_take]; omega
    · simp [List.length_drop]
    · simp [List.length_take, List.length_drop]; omega
  · intro s hs
    simp [splitOne]
    omega

/-- Sample 11-code-unit segment. -/
def elevenChars : Segment :=
  ['a', 'b', 'c', 'd', 'e', 'f', 'g', 'h', 'i', 'j', 'k']

/-- Witness for C1 at a concrete over-threshold segment. -/
theorem splitRound_spec_witness :
    splitOne elevenChars =
      [elevenChars.take (elevenChars.length / 2),
       elevenChars.drop (elevenChars.length / 2)] ∧
    (elevenChars.take (elevenChars.length / 2)).length ≤
      (elevenChars.drop (elevenChars.length / 2)).length := by
  have h := (splitRound_spec [elevenChars]).2.2.1 elevenChars (by decide)
  exact ⟨h.1, h.2.2.2.1⟩

/-! ### C2: termination within the logarithmic round bound -/

/-- C2: iterating the one-round splitting transformation reaches, within
`⌈log2(max segment length / 10)⌉` rounds, a fixed point at which the
all-done check returns true (every segment has length ≤ 10) and a further
round changes nothing and makes no split. -/
theorem iterRounds_reaches_fixed_point (segs : List Segment) :
    allDone (iterRounds (roundsBound (maxSegLength segs)) segs) = true ∧
    splitRound (iterRounds (roundsBound (maxSegLength segs)) segs) =
      (iterRounds (roundsBound (maxSegLength segs)) segs, 0) := by
  have h : allDone (iterRounds (roundsBound (maxSegLength segs)) segs) = true :=
    allDone_iterRounds _ segs (fun s hs =>
      (length_le_maxSegLength segs s hs).trans (le_roundsBound_pow _))
  exact ⟨h, splitRound_of_allDone _ h⟩

/-! ### Lemmas about the invocation paths of processJob -/

theorem applyWrites_tip (st : Store) (ws : List Props) :
    (applyWrites st ws).tip = st.tip + ws.length := by
  induction ws generalizing st with
  | nil => rfl
  | cons p ps ih =>
    simp only [applyWrites, List.length_cons, ih, storeWrite]
    omega

theorem processJob_allDone (st : Store) (d : Nat) (ws1 ws2 : List Props)
    (tf : Bool) (h : allDone (derivedSegments st.props) = true) :
    processJob st d ws1 ws2 tf = .ok [⟨st.id, true⟩] st := by
  simp [processJob, h]

theorem processJob_tipFail (st : Store) (d : Nat) (ws1 ws2 : List Props)
    (h : allDone (derivedSegments st.props) = false) :
    processJob st d ws1 ws2 true = .error (applyWrites st ws1) := by
  simp [processJob, h]

theorem processJob_split_success (st : Store) (d : Nat) (ws1 : List Props)
    (h : allDone (derivedSegments st.props) = false) :
    processJob st d ws1 [] false =
      .ok [⟨st.id, false⟩]
        (storeWrite (applyWrites st ws1) (nextProps st.props d)) := by
  simp [processJob, h, applyWrites, condWrite, nextProps]

theorem processJob_conflict (st : Store) (d : Nat) (ws1 ws2 : List Props)
    (h : allDone (derivedSegments st.props) = false) (hw : ws2 ≠ []) :
    processJob st d ws1 ws2 false =
      .error (applyWrites (applyWrites st ws1) ws2) := by
  have hlen : ws2.length ≠ 0 := by simpa [List.length_eq_zero] using hw
  have htip : (applyWrites (applyWrites st ws1) ws2).tip ≠
      (applyWrites st ws1).tip := by
    rw [applyWrites_tip]
    omega
  simp [processJob, h, condWrite, htip]

theorem processJob_ok_false (st : Store) (d : Nat) (ws1 ws2 : List Props)
    (tf : Bool) (rs : List StepResult) (fin : Store)
    (hok : processJob st d ws1 ws2 tf = .ok rs fin)
    (hw : rs = [⟨st.id, false⟩]) :
    allDone (derivedSegments st.props) = false ∧ tf = false ∧ ws2 = [] ∧
    fin = storeWrite (applyWrites st ws1) (nextProps st.props d) := by
  subst hw
  by_cases h : allDone (derivedSegments st.props) = true
  · rw [processJob_allDone st d ws1 ws2 tf h] at hok
    injection hok with h1 h2
    simp at h1
  · have hf : allDone (derivedSegments st.props) = false := by
      simpa using h
    cases tf with
    | true =>
      rw [processJob_tipFail st d ws1 ws2 hf] at hok
      exact Outcome.noConfusion hok
    | false =>
      by_cases hw2 : ws2 = []
      · subst hw2
        rw [processJob_split_success st d ws1 hf] at hok
        injection hok with h1 h2
        exact ⟨hf, rfl, rfl, h2.symm⟩
      · rw [processJob_conflict st d ws1 ws2 hf hw2] at hok
        exact Outcome.noConfusion hok

theorem allDone_iff_fixed (segs : List Segment) :
    allDone segs = true ↔ (splitRound segs).1 = segs := by
  constructor
  · intro h
    rw [splitRound_of_allDone segs h]
  · intro h
    by_contra hc
    have hf : allDone segs = false := by simpa using hc
    have h1 := splitRound_fst_length segs
    have h2 := splitRound_snd_pos segs hf
    have h3 : segs.length < (splitRound segs).1.length := by omega
    rw [h] at h3
    omega

/-! ### Concrete records used by witnesses and counterexamples -/

/-- A record whose working segments are all at or below the threshold. -/
def smallProps : Props :=
  { text := some ['h', 'i']
    segments := some [['a', 'b', 'c']]
    split_count := some 2
    last_split_depth := some 1
    other := [("label", "x")] }

def smallStore : Store := ⟨"ent-1", smallProps, 5⟩

/-- Sample 12-code-unit segment. -/
def twelveChars : Segment :=
  ['a', 'b', 'c', 'd', 'e', 'f', 'g', 'h', 'i', 'j', 'k', 'l']

/-- A record holding one over-threshold segment. -/
def bigProps : Props :=
  { text := some twelveChars
    segments := some [twelveChars]
    split_count := none
    last_split_depth := none
    other := [("label", "y")] }

def bigStore : Store := ⟨"ent-2", bigProps, 0⟩

/-- Properties installed by a concurrent writer in the scenarios below. -/
def intruderProps : Props :=
  { text := none
    segments := some [['z']]
    split_count := some 7
    last_split_depth := none
    other := [("who", "intruder")] }

/-! ### C3: the terminal path writes nothing and is idempotent -/

/-- C3: when every working segment has length ≤ 10, `processJob` returns
`[{entity_id: target.id, done: true}]` before any version-token fetch or
conditional write, leaving the store exactly as read; invoking it again
on the same unchanged record (at any depth) again writes nothing and
again returns `done=true`. -/
theorem terminal_no_write (st : Store) (d1 d2 : Nat) (ws1 ws2 : List Props)
    (tf : Bool) (h : allDone (derivedSegments st.props) = true) :
    processJob st d1 ws1 ws2 tf = .ok [⟨st.id, true⟩] st ∧
    processJob st d2 [] [] false = .ok [⟨st.id, true⟩] st :=
  ⟨processJob_allDone st d1 ws1 ws2 tf h,
   processJob_allDone st d2 [] [] false h⟩

/-- Witness for C3 at a concrete all-done record. -/
theorem terminal_no_write_witness :
    processJob smallStore 0 [] [] false = .ok [⟨"ent-1", true⟩] smallStore :=
  (terminal_no_write smallStore 0 1 [] [] false (by decide)).1

/-! ### C4: the non-terminal path issues one guarded write -/

/-- C4: with some working segment over the threshold, a successful tip
fetch and no interference after it, `processJob` issues a single
conditional write guarded by the freshly fetched token (fresh: the write
succeeds even when concurrent writes landed between the initial record
read and the token fetch), whose properties set `segments` to the split
sequence, `split_count` to `(previous ?? 0) + 1` and `last_split_depth`
to the supplied depth, and returns `[{entity_id: target.id,
done: false}]`. -/
theorem split_path_write (st : Store) (d : Nat) (ws1 : List Props)
    (h : allDone (derivedSegments st.props) = false) :
    processJob st d ws1 [] false =
      .ok [⟨st.id, false⟩]
        (storeWrite (applyWrites st ws1) (nextProps st.props d)) ∧
    nextProps st.props d =
      { st.props with
        segments := some (splitRound (derivedSegments st.props)).1
        split_count := some (st.props.split_count.getD 0 + 1)
        last_split_depth := some d } :=
  ⟨processJob_split_success st d ws1 h, rfl⟩

/-- Witness for C4 at a concrete over-threshold record. -/
theorem split_path_write_witness :
    processJob bigStore 3 [] [] false =
      .ok [⟨"ent-2", false⟩] (storeWrite bigStore (nextProps bigProps 3)) :=
  (split_path_write bigStore 3 [] (by decide)).1

/-! ### C5: the done flag reports exactly whether a round would change -/

/-- C5: the done flag returned by `processJob` is true iff one round of
the splitting transformation leaves the working sequence unchanged;
whenever `done=false` is returned, at least one segment was split and the
persisted sequence differs from (and is strictly longer than) the one
read. -/
theorem done_iff_no_change (st : Store) (d : Nat) :
    (outcomeResults (processJob st d [] [] false) = some [⟨st.id, true⟩] ↔
      (splitRound (derivedSegments st.props)).1 = derivedSegments st.props) ∧
    (allDone (derivedSegments st.props) = false →
      outcomeResults (processJob st d [] [] false) = some [⟨st.id, false⟩] ∧
      1 ≤ (splitRound (derivedSegments st.props)).2 ∧
      (derivedSegments st.props).length <
        (splitRound (derivedSegments st.props)).1.length ∧
      (splitRound (derivedSegments st.props)).1 ≠ derivedSegments st.props) := by
  constructor
  · by_cases h : allDone (derivedSegments st.props) = true
    · rw [processJob_allDone st d [] [] false h]
      simpa [outcomeResults] using (allDone_iff_fixed _).1 h
    · have hf : allDone (derivedSegments st.props) = false := by simpa using h
      rw [processJob_split_success st d [] hf]
      simp only [outcomeResults]
      constructor
      · intro hx
        simp at hx
      · intro hx
        exact absurd ((allDone_iff_fixed _).2 hx) h
  · intro hf
    have h1 := splitRound_fst_length (derivedSegments st.props)
    have h2 := splitRound_snd_pos _ hf
    have h3 : (derivedSegments st.props).length <
        (splitRound (derivedSegments st.props)).1.length := by omega
    refine ⟨?_, h2, h3, ?_⟩
    · rw [processJob_split_success st d [] hf]
      rfl
    · intro hx
      rw [hx] at h3
      omega

/-- Witness for C5 at a concrete over-threshold record. -/
theorem done_iff_no_change_witness :
    outcomeResults (processJob bigStore 0 [] [] false) =
      some [⟨"ent-2", false⟩] ∧
    1 ≤ (splitRound (derivedSegments bigStore.props)).2 :=
  ⟨((done_iff_no_change bigStore 0).2 (by decide)).1,
   ((done_iff_no_change bigStore 0).2 (by decide)).2.1⟩

/-! ### C6: derivation of the working sequence; empty sequence is done -/

/-- C6: the working sequence is the record's `segments` when present and
non-empty, otherwise `[text]` when `text` is a non-empty string,
otherwise empty; and on the empty working sequence the all-done check is
vacuously true with zero splits and the invocation returns `done=true`
without writing. -/
theorem working_segments_spec (p : Props) (st : Store) (d : Nat)
    (ws1 ws2 : List Props) (tf : Bool) (l : List Segment) (t : Segment) :
    (p.segments = some l → l.length ≠ 0 → derivedSegments p = l) ∧
    ((p.segments = none ∨ p.segments = some []) → p.text = some t →
      t.length ≠ 0 → derivedSegments p = [t]) ∧
    ((p.segments = none ∨ p.segments = some []) →
      (p.text = none ∨ p.text = some []) → derivedSegments p = []) ∧
    (allDone [] = true ∧ splitRound [] = ([], 0)) ∧
    (derivedSegments st.props = [] →
      processJob st d ws1 ws2 tf = .ok [⟨st.id, true⟩] st) := by
  refine ⟨?_, ?_, ?_, ⟨rfl, rfl⟩, ?_⟩
  · intro h1 h2
    simp [derivedSegments, h1, h2]
  · intro h1 h2 h3
    rcases h1 with h1 | h1 <;>
      simp [derivedSegments, initialSegments, h1, h2, h3]
  · intro h1 h2
    rcases h1 with h1 | h1 <;> rcases h2 with h2 | h2 <;>
      simp [derivedSegments, initialSegments, h1, h2]
  · intro h1
    exact processJob_allDone st d ws1 ws2 tf (by rw [h1]; rfl)

/-- Witness for C6: a record with no `segments` and non-empty `text`
derives the one-element sequence. -/
theorem working_segments_spec_witness :
    derivedSegments ⟨some ['h', 'i'], none, none, none, []⟩ = [['h', 'i']] :=
  (working_segments_spec ⟨some ['h', 'i'], none, none, none, []⟩
      smallStore 0 [] [] false [] ['h', 'i']).2.1 (Or.inl rfl) rfl (by decide)

/-! ### C7: failures abort without mutating the record -/

/-- C7: on the non-terminal path, a tip-fetch failure or a rejected
conditional write makes `processJob` raise an error with no Step Result,
and the failed invocation contributes no write of its own: the store
after the failure holds only the concurrent writers' effects, and in the
interference-free tip-failure case it is exactly the store as read. -/
theorem failure_paths (st : Store) (d : Nat) (ws1 ws2 : List Props)
    (h : allDone (derivedSegments st.props) = false) :
    processJob st d ws1 ws2 true = .error (applyWrites st ws1) ∧
    (ws2 ≠ [] → processJob st d ws1 ws2 false =
      .error (applyWrites (applyWrites st ws1) ws2)) ∧
    outcomeResults (processJob st d ws1 ws2 true) = none ∧
    processJob st d [] [] true = .error st :=
  ⟨processJob_tipFail st d ws1 ws2 h,
   fun hw => processJob_conflict st d ws1 ws2 h hw,
   by rw [processJob_tipFail st d ws1 ws2 h]; rfl,
   processJob_tipFail st d [] [] h⟩

/-- Witness for C7: a simulated version-token conflict at a concrete
record fails without our write being applied. -/
theorem failure_paths_witness :
    processJob bigStore 0 [] [intruderProps] false =
      .error (applyWrites (applyWrites bigStore []) [intruderProps]) :=
  (failure_paths bigStore 0 [] [intruderProps] (by decide)).2.1 (by decide)

/-! ### C8: what the version token does and does not guarantee -/

/-- Counterexample to C8 as stated: a concurrent write lands between the
initial record read and the version-token fetch; the conditional write
nevertheless succeeds, although the record was modified after the state
read on which the written properties are based (the stale-read
properties are what gets written). -/
theorem cas_window_counterexample :
    processJob bigStore 0 [intruderProps] [] false =
      .ok [⟨"ent-2", false⟩]
        (storeWrite (applyWrites bigStore [intruderProps])
          (nextProps bigProps 0)) ∧
    applyWrites bigStore [intruderProps] ≠ bigStore := by
  exact ⟨by decide, by decide⟩

/-- C8 amended: a successful non-terminal write implies no concurrent
modification occurred between the version-token fetch and the write
itself (not: since the initial state read used to compute the update). -/
theorem cas_guard_amended (st : Store) (d : Nat) (ws1 ws2 : List Props)
    (tf : Bool) (rs : List StepResult) (fin : Store)
    (hok : processJob st d ws1 ws2 tf = .ok rs fin)
    (hw : rs = [⟨st.id, false⟩]) : ws2 = [] :=
  (processJob_ok_false st d ws1 ws2 tf rs fin hok hw).2.2.1

/-- Witness for the amended C8 at a concrete successful write. -/
theorem cas_guard_amended_witness : ([] : List Props) = [] :=
  cas_guard_amended bigStore 3 [] [] false [⟨"ent-2", false⟩]
    (storeWrite bigStore (nextProps bigProps 3)) (by decide) rfl

/-! ### C9: the depth input only affects the audit field -/

/-- C9: two invocations differing only in the recursion-depth input
yield the same Step Results and final stores agreeing everywhere except
the `last_split_depth` audit field. -/
theorem depth_noninterference (st : Store) (d1 d2 : Nat)
    (ws1 ws2 : List Props) (tf : Bool) :
    outcomeResults (processJob st d1 ws1 ws2 tf) =
      outcomeResults (processJob st d2 ws1 ws2 tf) ∧
    eraseDepthStore (finalStore (processJob st d1 ws1 ws2 tf)) =
      eraseDepthStore (finalStore (processJob st d2 ws1 ws2 tf)) := by
  by_cases h : allDone (derivedSegments st.props) = true
  · rw [processJob_allDone st d1 ws1 ws2 tf h,
      processJob_allDone st d2 ws1 ws2 tf h]
    exact ⟨rfl, rfl⟩
  · have hf : allDone (derivedSegments st.props) = false := by simpa using h
    cases tf with
    | true =>
      rw [processJob_tipFail st d1 ws1 ws2 hf,
        processJob_tipFail st d2 ws1 ws2 hf]
      exact ⟨rfl, rfl⟩
    | false =>
      by_cases hw2 : ws2 = []
      · subst hw2
        rw [processJob_split_success st d1 ws1 hf,
          processJob_split_success st d2 ws1 hf]
        refine ⟨rfl, ?_⟩
        simp [eraseDepthStore, eraseDepth, storeWrite, finalStore, nextProps]
      · rw [processJob_conflict st d1 ws1 ws2 hf hw2,
          processJob_conflict st d2 ws1 ws2 hf hw2]
        exact ⟨rfl, rfl⟩

/-! ### C10: writes preserve all other properties verbatim -/

/-- C10: every invocation that performs a write carries every property of
the record other than `segments`, `split_count` and `last_split_depth`
over unchanged from the values read at the start of the step: in
particular `text` and the additional properties are preserved verbatim. -/
theorem write_frame (st : Store) (d : Nat) (ws1 ws2 : List Props)
    (tf : Bool) (rs : List StepResult) (fin : Store)
    (hok : processJob st d ws1 ws2 tf = .ok rs fin)
    (hw : rs = [⟨st.id, false⟩]) :
    fin.props.text = st.props.text ∧ fin.props.other = st.props.other := by
  have hfin := (processJob_ok_false st d ws1 ws2 tf rs fin hok hw).2.2.2
  subst hfin
  exact ⟨rfl, rfl⟩

/-- Witness for C10 at a concrete successful write. -/
theorem write_frame_witness :
    (storeWrite bigStore (nextProps bigProps 3)).props.other =
      bigStore.props.other :=
  (write_frame bigStore 3 [] [] false [⟨"ent-2", false⟩]
    (storeWrite bigStore (nextProps bigProps 3)) (by decide) rfl).2

end RecurseSplitter
